import Mathlib

/-!
Verification of the corrum multi-agent review orchestrator core.

Shallow embedding of:
* `src/core/state-machine.ts` — the xstate proposal lifecycle machine
  (`proposalMachine`), embedded as an explicit step function on a
  status × context state;
* `src/core/consensus.ts` — `evaluateConsensus`;
* `src/core/expertise-matcher.ts` (concatenated into the state-machine
  document) — `matchExpertise`;
* `src/core/events.ts` — `selectArbiter`;
* `src/config/schema.ts` + `src/config/loader.ts` — role-configuration
  resolution (`rolesSchema` transform, `loadConfig` fallback);
* `src/commands/complete.ts` — `decideCommand`'s status update.

Machine integers do not overflow here (all counters are small naturals),
so counters are `Nat`.
-/

namespace Corrum

/-- Agent names, from `z.enum(['claude', 'codex', 'gemini'])` in
`src/config/schema.ts`. -/
inductive AgentName
  | claude
  | codex
  | gemini
deriving DecidableEq, Repr

/-- Model families, from `z.enum(['anthropic', 'openai', 'google'])`. -/
inductive ModelFamily
  | anthropic
  | openai
  | google
deriving DecidableEq, Repr

/-- Votes, from `src/types/review.ts`: `'APPROVE' | 'REJECT' | 'REVISE'`. -/
inductive Vote
  | APPROVE
  | REJECT
  | REVISE
deriving DecidableEq, Repr

/-- The eight lifecycle states of `proposalMachine`. -/
inductive ProposalStatus
  | draft
  | pending_review
  | revision
  | disputed
  | escalated
  | approved
  | rejected
  | implemented
deriving DecidableEq, Repr

/-- One accumulator entry, `{ agent: AgentName; vote: Vote }`. -/
structure VoteEntry where
  agent : AgentName
  vote : Vote
deriving DecidableEq, Repr

/-- `ProposalContext` from `src/core/state-machine.ts`. -/
structure ProposalContext where
  proposalId : String
  iterations : Nat
  maxIterations : Nat
  votes : List VoteEntry
  arbiter : Option AgentName
  requireUnanimous : Bool
deriving DecidableEq, Repr

/-- `ProposalEvent` from `src/core/state-machine.ts`. -/
inductive ProposalEvent
  | CREATE
  | REVIEW_RECEIVED (agent : AgentName) (vote : Vote)
  | REVISED
  | ARBITER_DECISION (vote : Vote)
  | HUMAN_DECISION (approved : Bool)
  | IMPLEMENTATION_COMPLETE
deriving DecidableEq, Repr

/-- A configuration of the xstate machine: current state value plus context. -/
structure MachineState where
  status : ProposalStatus
  context : ProposalContext
deriving DecidableEq, Repr

/-- The machine's default context (`context:` block of `proposalMachine`). -/
def initialContext : ProposalContext :=
  { proposalId := ""
    iterations := 0
    maxIterations := 2
    votes := []
    arbiter := none
    requireUnanimous := false }

/-- The machine's initial configuration: `initial: 'draft'` with the default
context. -/
def initialState : MachineState :=
  { status := .draft, context := initialContext }

/-- The transition function of `proposalMachine`. Each `on:` handler is a
guard list tried in order; xstate ignores an event with no matching handler
or no passing guard, returning the configuration unchanged (this is the
`| _, _ => s` fallthrough — no exception is ever raised). -/
def step (s : MachineState) (e : ProposalEvent) : MachineState :=
  match s.status, e with
  | .draft, .CREATE =>
      { status := .pending_review, context := { s.context with votes := [] } }
  | .pending_review, .REVIEW_RECEIVED agent vote =>
      let newVotes := s.context.votes ++ [⟨agent, vote⟩]
      -- guard 1: all approve -> approved
      if (newVotes.all fun v => v.vote = .APPROVE) ∧ newVotes.length > 0 then
        { status := .approved, context := { s.context with votes := newVotes } }
      -- guard 2: the incoming vote is REVISE -> revision
      else if vote = .REVISE then
        { status := .revision, context := { s.context with votes := newVotes } }
      -- guard 3: mixed votes -> disputed
      else if (newVotes.any fun v => v.vote = .APPROVE) ∧
              (newVotes.any fun v => v.vote = .REJECT) then
        { status := .disputed, context := { s.context with votes := newVotes } }
      -- guard 4: all reject -> rejected
      else if (newVotes.all fun v => v.vote = .REJECT) ∧ newVotes.length > 0 then
        { status := .rejected, context := { s.context with votes := newVotes } }
      -- default: just record the vote
      else
        { s with context := { s.context with votes := newVotes } }
  | .revision, .REVISED =>
      if s.context.iterations ≥ s.context.maxIterations then
        { status := .escalated
          context := { s.context with iterations := s.context.iterations + 1 } }
      else
        { status := .pending_review
          context := { s.context with
                        iterations := s.context.iterations + 1
                        votes := [] } }
  | .disputed, .ARBITER_DECISION vote =>
      if vote = .APPROVE then { s with status := .approved }
      else if vote = .REJECT then { s with status := .rejected }
      else s
  | .disputed, .HUMAN_DECISION approved =>
      if approved then { s with status := .approved }
      else { s with status := .rejected }
  | .escalated, .HUMAN_DECISION approved =>
      if approved then { s with status := .approved }
      else { s with status := .rejected }
  | .approved, .IMPLEMENTATION_COMPLETE => { s with status := .implemented }
  | _, _ => s

/-- Whether some transition of `proposalMachine` matches the state–event
pair, i.e. the state's `on:` block handles the event type and at least one
entry's guard passes. Read off the machine's transition table. -/
def hasTransition (s : MachineState) (e : ProposalEvent) : Bool :=
  match s.status, e with
  | .draft, .CREATE => true
  | .pending_review, .REVIEW_RECEIVED _ _ => true  -- unguarded default entry
  | .revision, .REVISED => true                    -- unguarded second entry
  | .disputed, .ARBITER_DECISION vote => vote = .APPROVE ∨ vote = .REJECT
  | .disputed, .HUMAN_DECISION _ => true           -- unguarded second entry
  | .escalated, .HUMAN_DECISION _ => true
  | .approved, .IMPLEMENTATION_COMPLETE => true
  | _, _ => false

/-- Reachability between machine configurations under `step`. -/
inductive Reachable : MachineState → MachineState → Prop
  | refl (s : MachineState) : Reachable s s
  | tail {s t : MachineState} (e : ProposalEvent) :
      Reachable s t → Reachable s (step t e)

/-! ## Consensus evaluator (`src/core/consensus.ts`) -/

/-- `ConsensusMode` from `src/types/config.ts`. -/
inductive ConsensusMode
  | majority
  | unanimous
deriving DecidableEq, Repr

/-- Consensus outcomes (`'approved' | 'rejected' | 'revise' | 'disputed'`;
the TS `null` is `Option.none` on the Lean side). -/
inductive ConsensusOutcome
  | approved
  | rejected
  | revise
  | disputed
deriving DecidableEq, Repr

/-- `ConsensusResult` from `src/types/state.ts`. -/
structure ConsensusResult where
  hasConsensus : Bool
  outcome : Option ConsensusOutcome
  votes : List VoteEntry
deriving DecidableEq, Repr

/-- The count a vote value receives in the `voteCounts` record built by the
`for (const review of reviews)` loop of `evaluateConsensus`. -/
def voteCount (reviews : List VoteEntry) (v : Vote) : Nat :=
  reviews.countP fun r => r.vote = v

/-- Consensus-mode resolution in `evaluateConsensus`:
`options?.consensusModeOverride ?? config.rules.consensusMode
?? (config.rules.requireUnanimous ? 'unanimous' : 'majority')`. -/
def resolveConsensusMode (override : Option ConsensusMode)
    (cfgMode : Option ConsensusMode) (requireUnanimous : Bool) : ConsensusMode :=
  override.getD (cfgMode.getD (if requireUnanimous then .unanimous else .majority))

/-- `evaluateConsensus` from `src/core/consensus.ts`, with the consensus
mode already resolved by `resolveConsensusMode`. A review enters the
computation only through its `(agent, vote)` projection
(`reviews.map(r => ({ agent: r.agent, vote: r.vote }))`), so reviews are
passed as `VoteEntry`s. -/
def evaluateConsensus (reviews : List VoteEntry) (consensusMode : ConsensusMode) :
    ConsensusResult :=
  if reviews.length = 0 then
    { hasConsensus := false, outcome := none, votes := [] }
  else
    let votes := reviews
    let totalVotes := reviews.length
    -- unanimous approval / rejection, regardless of mode
    if voteCount reviews .APPROVE = totalVotes then
      { hasConsensus := true, outcome := some .approved, votes := votes }
    else if voteCount reviews .REJECT = totalVotes then
      { hasConsensus := true, outcome := some .rejected, votes := votes }
    -- any REVISE vote always triggers revision
    else if voteCount reviews .REVISE > 0 then
      { hasConsensus := true, outcome := some .revise, votes := votes }
    -- simple majority in majority mode
    else if consensusMode = .majority ∧
            voteCount reviews .APPROVE > voteCount reviews .REJECT then
      { hasConsensus := true, outcome := some .approved, votes := votes }
    else if consensusMode = .majority ∧
            voteCount reviews .REJECT > voteCount reviews .APPROVE then
      { hasConsensus := true, outcome := some .rejected, votes := votes }
    -- unanimous mode with mixed votes, or a majority-mode tie
    else
      { hasConsensus := false, outcome := some .disputed, votes := votes }

/-! ## Expertise matcher (`src/core/expertise-matcher.ts`) -/

/-- `ExpertiseProfile` configuration record. -/
structure ExpertiseProfile where
  name : String
  keywords : List String
  filePatterns : List String
  promptFocus : String
deriving DecidableEq, Repr

/-- `ExpertiseMatch` result record. -/
structure ExpertiseMatch where
  expertise : String
  score : Nat
  matchedKeywords : List String
  matchedFilePatterns : List String
deriving DecidableEq, Repr

/-- `s.toLowerCase()` on the character sequence of a string. -/
def lowerChars (s : String) : List Char :=
  s.data.map Char.toLower

/-- Whether `hay` starts with `needle`. -/
def charsStartsWith : List Char → List Char → Bool
  | _, [] => true
  | [], _ :: _ => false
  | h :: hs, n :: ns => h = n && charsStartsWith hs ns

/-- JS `hay.includes(needle)`: `needle` occurs contiguously in `hay`. -/
def charsIncludes (hay needle : List Char) : Bool :=
  match hay with
  | [] => needle.isEmpty
  | _ :: rest => charsStartsWith hay needle || charsIncludes rest needle

/-- `matchExpertise` from the expertise matcher. The call
`micromatch(files, pattern)` (the list of files the glob pattern matches)
is embedded as `files.filter (globMatch pattern)` for an abstract glob
predicate `globMatch`, since only the emptiness of its result is consumed. -/
def matchExpertise (globMatch : String → String → Bool) (task : String)
    (files : List String) (expertise : ExpertiseProfile) : ExpertiseMatch :=
  let taskLower := lowerChars task
  let matchedKeywords := expertise.keywords.filter fun keyword =>
    charsIncludes taskLower (lowerChars keyword)
  let matchedFilePatterns :=
    if files.length > 0 ∧ expertise.filePatterns.length > 0 then
      expertise.filePatterns.filter fun pat =>
        (files.filter (globMatch pat)).length > 0
    else []
  let keywordScore := matchedKeywords.length * 2
  let filePatternScore := matchedFilePatterns.length
  { expertise := expertise.name
    score := keywordScore + filePatternScore
    matchedKeywords := matchedKeywords
    matchedFilePatterns := matchedFilePatterns }

/-! ## Role configuration (`src/config/schema.ts`, `src/config/loader.ts`,
`src/config/defaults.ts`) -/

/-- Arbiter selection strategies,
`z.enum(['round-robin', 'least-used', 'specific'])`. -/
inductive ArbiterStrategy
  | roundRobin
  | leastUsed
  | specific
deriving DecidableEq, Repr

/-- Resolved `roles` configuration (output of the `rolesSchema` transform). -/
structure RolesConfig where
  defaultPlanner : AgentName
  defaultReviewers : List AgentName
  arbiterStrategy : ArbiterStrategy
  arbiters : List AgentName
deriving DecidableEq, Repr

/-- Raw `[roles]` table as accepted by `rolesSchema`: every field is
`.optional()`, in both snake_case and camelCase spellings; zod rejects
nothing here except type mismatches, which are outside a well-typed value. -/
structure RawRoles where
  default_planner : Option AgentName := none
  defaultPlanner : Option AgentName := none
  default_reviewers : Option (List AgentName) := none
  defaultReviewers : Option (List AgentName) := none
  arbiter_strategy : Option ArbiterStrategy := none
  arbiterStrategy : Option ArbiterStrategy := none
  arbiters : Option (List AgentName) := none
deriving DecidableEq, Repr

/-- The `.transform(...)` of `rolesSchema`: camelCase wins over snake_case,
and absent fields fall back to hard-coded defaults. Total — a missing
planner or reviewer list is filled in, never rejected. -/
def resolveRoles (val : RawRoles) : RolesConfig :=
  { defaultPlanner := val.defaultPlanner.getD (val.default_planner.getD .claude)
    defaultReviewers := val.defaultReviewers.getD (val.default_reviewers.getD [.codex])
    arbiterStrategy := val.arbiterStrategy.getD (val.arbiter_strategy.getD .roundRobin)
    arbiters := val.arbiters.getD [.gemini, .claude] }

/-- The `roles` block of `DEFAULT_CONFIG` (`src/config/defaults.ts`). -/
def DEFAULT_ROLES : RolesConfig :=
  { defaultPlanner := .claude
    defaultReviewers := [.codex]
    arbiterStrategy := .roundRobin
    arbiters := [.gemini, .claude] }

/-- The roles produced by `loadConfig`: `none` — no config file on disk, so
`DEFAULT_CONFIG` is returned as-is; `some none` — a config file without a
`[roles]` table, so `deepMerge` keeps `DEFAULT_CONFIG.roles` (undefined
source keys are skipped); `some (some raw)` — a `[roles]` table, resolved by
the `rolesSchema` transform, whose fully-defined output overrides every
default field in the merge. -/
def loadRoles : Option (Option RawRoles) → RolesConfig
  | none => DEFAULT_ROLES
  | some none => DEFAULT_ROLES
  | some (some raw) => resolveRoles raw

/-! ## Arbiter selection (`src/core/events.ts`) -/

/-- `count < minArbitrations` where `minArbitrations` starts at `Infinity`
(embedded as `none`). -/
def ltMin (count : Nat) : Option Nat → Bool
  | none => true
  | some m => count < m

/-- The `for (const arbiter of eligibleArbiters)` loop body of the
round-robin / least-used branches of `selectArbiter`: keep the running
`selectedArbiter` and `minArbitrations`, replacing them whenever a
strictly smaller arbitration count appears. -/
def leastUsedGo (arbitrations : AgentName → Nat) :
    List AgentName → AgentName → Option Nat → AgentName
  | [], selected, _ => selected
  | a :: rest, selected, minA =>
      if ltMin (arbitrations a) minA then
        leastUsedGo arbitrations rest a (some (arbitrations a))
      else
        leastUsedGo arbitrations rest selected minA

/-- The round-robin / least-used selection over the eligible list:
`selectedArbiter = eligibleArbiters[0]`, `minArbitrations = Infinity`,
then the loop. `none` when the list is empty (`eligibleArbiters[0]` would
be `undefined`; unreachable in the source, which guards on emptiness). -/
def selectLeastUsed (arbitrations : AgentName → Nat)
    (eligibleArbiters : List AgentName) : Option AgentName :=
  match eligibleArbiters with
  | [] => none
  | e0 :: _ => some (leastUsedGo arbitrations eligibleArbiters e0 none)

/-- `selectArbiter` from `src/core/events.ts`. `agentFamily` is the map
`agent => config.agents[agent].modelFamily`; `arbitrations` is
`agent => stats.byAgent[agent]?.arbitrations ?? 0` from the storage
snapshot. Array indexing `arbiters[0]` is the fallible `head?`. -/
def selectArbiter (roles : RolesConfig) (agentFamily : AgentName → ModelFamily)
    (arbitrations : AgentName → Nat) (excludeFamily : ModelFamily) :
    Option AgentName :=
  let eligibleArbiters := roles.arbiters.filter fun agent =>
    agentFamily agent ≠ excludeFamily
  if eligibleArbiters.length = 0 then
    -- fallback to any arbiter if none from a different family
    roles.arbiters.head?
  else
    match roles.arbiterStrategy with
    | .roundRobin => selectLeastUsed arbitrations eligibleArbiters
    | .leastUsed => selectLeastUsed arbitrations eligibleArbiters
    | .specific => eligibleArbiters.head?

/-! ## Decision recording (`src/commands/complete.ts`, `decideCommand`) -/

/-- Decision outcomes, `'approved' | 'rejected' | 'deferred'`. -/
inductive DecisionOutcome
  | approved
  | rejected
  | deferred
deriving DecidableEq, Repr

/-- The `newStatus` computation of `decideCommand`: `deferred` goes to
`escalated` for human review. -/
def decideNewStatus (outcome : DecisionOutcome) : ProposalStatus :=
  if outcome = .approved then .approved
  else if outcome = .rejected then .rejected
  else .escalated

/-- A stored proposal row, restricted to the fields `decideCommand`'s
status update touches. -/
structure StoredProposal where
  id : String
  status : ProposalStatus
deriving DecidableEq, Repr

/-- `storage.updateProposal(proposalId, { status: newStatus })`: set the
status of every row whose id matches. -/
def updateProposalStatus (proposals : List StoredProposal) (id : String)
    (newStatus : ProposalStatus) : List StoredProposal :=
  proposals.map fun p => if p.id = id then { p with status := newStatus } else p

/-- The status update `decideCommand` performs after recording a decision. -/
def decideStatusUpdate (proposals : List StoredProposal) (id : String)
    (outcome : DecisionOutcome) : List StoredProposal :=
  updateProposalStatus proposals id (decideNewStatus outcome)

/-! ## Spec-side definitions (for refinement comparison) -/

/-- The spec's description of the `pending_review` + `REVIEW_RECEIVED`
decision chain, written from the spec's words, to be compared against
`step`: "if every accumulated vote is APPROVE → approved; else if the vote
cascade (ConsensusEvaluator over the full accumulator) yields revise →
revision; else if the accumulated votes contain both APPROVE and REJECT →
disputed; else if every accumulated vote is REJECT → rejected; otherwise
remain in pending_review". -/
def specPendingReviewTarget (mode : ConsensusMode) (newVotes : List VoteEntry) :
    ProposalStatus :=
  if newVotes.all fun v => v.vote = .APPROVE then .approved
  else if (evaluateConsensus newVotes mode).outcome = some .revise then .revision
  else if (newVotes.any fun v => v.vote = .APPROVE) ∧
          (newVotes.any fun v => v.vote = .REJECT) then .disputed
  else if newVotes.all fun v => v.vote = .REJECT then .rejected
  else .pending_review

/-! ## Theorems -/

/-- C6: every state–event pair with no matching transition in the lifecycle
machine (`REVISED` in `draft`, any event in `rejected` or `implemented`,
`ARBITER_DECISION` with vote `REVISE` in `disputed`, …) is a no-op: the
status, iterations counter, and vote accumulator are all unchanged; `step`
is total, so no error is raised. -/
theorem c6_unmatched_event_is_noop (s : MachineState) (e : ProposalEvent)
    (h : hasTransition s e = false) : step s e = s := by
  obtain ⟨st, ctx⟩ := s
  cases st <;> cases e <;> simp_all [hasTransition, step]

/-- C6 witness: `REVISED` in `draft` and a `REVISE` arbiter decision in
`disputed` are both unmatched and leave the state untouched. -/
theorem c6_unmatched_event_is_noop_witness :
    (hasTransition ⟨.draft, initialContext⟩ .REVISED = false ∧
      step ⟨.draft, initialContext⟩ .REVISED = ⟨.draft, initialContext⟩) ∧
    (hasTransition ⟨.disputed, initialContext⟩ (.ARBITER_DECISION .REVISE) = false ∧
      step ⟨.disputed, initialContext⟩ (.ARBITER_DECISION .REVISE) =
        ⟨.disputed, initialContext⟩) :=
  ⟨⟨by decide, c6_unmatched_event_is_noop _ _ (by decide)⟩,
   ⟨by decide, c6_unmatched_event_is_noop _ _ (by decide)⟩⟩

/-- C2 counterexample: in `revision` with `iterations = 1 = maxIterations − 1`
(`maxIterations = 2 > 0`), `REVISED` goes back to `pending_review` with
`iterations = 2` — not to `escalated` as the claim states. -/
theorem c2_revised_boundary_counterexample :
    let s : MachineState :=
      ⟨.revision,
        { proposalId := "p-1", iterations := 1, maxIterations := 2,
          votes := [], arbiter := none, requireUnanimous := false }⟩
    (step s .REVISED).status = .pending_review ∧
    (step s .REVISED).status ≠ .escalated ∧
    (step s .REVISED).context.iterations = 2 := by
  decide

/-- C2 amended: in `revision` with `iterations = maxIterations − 1`
(`maxIterations > 0`), `REVISED` transitions to `pending_review` — not
`escalated` — with `iterations` incremented by exactly 1 (and the vote
accumulator cleared); `escalated` is reached exactly when
`iterations ≥ maxIterations`. -/
theorem c2_revised_boundary (s : MachineState) (h : s.status = .revision)
    (hmax : 0 < s.context.maxIterations)
    (hit : s.context.iterations = s.context.maxIterations - 1) :
    (step s .REVISED).status = .pending_review ∧
    (step s .REVISED).context.iterations = s.context.iterations + 1 ∧
    (step s .REVISED).context.votes = [] := by
  obtain ⟨st, ctx⟩ := s
  dsimp only at h hmax hit
  subst h
  have hlt : ¬ ctx.iterations ≥ ctx.maxIterations := by omega
  simp [step, hlt]

/-- C2 witness: the amended statement at `iterations = 1`,
`maxIterations = 2`. -/
theorem c2_revised_boundary_witness :
    (step ⟨.revision,
        { proposalId := "p-1", iterations := 1, maxIterations := 2,
          votes := [], arbiter := none, requireUnanimous := false }⟩
      .REVISED).status = .pending_review :=
  (c2_revised_boundary _ rfl (by decide) (by decide)).1

/-- C9 counterexample: a `[roles]` table with no planner and no reviewer
list resolves successfully to the hard-coded defaults (`claude`, `[codex]`)
instead of failing; an explicitly empty reviewer list is accepted as empty;
and an absent config file yields `DEFAULT_CONFIG`'s roles. Loading never
fails for a missing or empty planner/reviewer configuration. -/
theorem c9_missing_roles_counterexample :
    resolveRoles {} = DEFAULT_ROLES ∧
    (resolveRoles { defaultReviewers := some [] }).defaultReviewers = [] ∧
    loadRoles none = DEFAULT_ROLES := by
  decide

/-- C9 amended: a missing planner or reviewer configuration is not a fatal
error — `rolesSchema`'s transform substitutes the defaults `claude` and
`[codex]`, an explicitly empty reviewer list is accepted unchanged, and a
missing config file yields the built-in default roles. -/
theorem c9_missing_roles_defaulted (r : RawRoles)
    (hp : r.defaultPlanner = none) (hps : r.default_planner = none)
    (hv : r.defaultReviewers = none) (hvs : r.default_reviewers = none) :
    (resolveRoles r).defaultPlanner = .claude ∧
    (resolveRoles r).defaultReviewers = [.codex] ∧
    (∀ l, (resolveRoles { r with defaultReviewers := some l }).defaultReviewers = l) ∧
    loadRoles (some (some r)) = resolveRoles r := by
  simp [resolveRoles, loadRoles, hp, hps, hv, hvs]

/-- C9 witness: the amended statement at the empty raw `[roles]` table. -/
theorem c9_missing_roles_defaulted_witness :
    (resolveRoles {}).defaultPlanner = .claude ∧
    (resolveRoles {}).defaultReviewers = [.codex] :=
  ⟨(c9_missing_roles_defaulted {} rfl rfl rfl rfl).1,
   (c9_missing_roles_defaulted {} rfl rfl rfl rfl).2.1⟩

/-- Updating the status of every row with a given id rewrites exactly the
row `find?` locates for that id. -/
theorem find?_updateProposalStatus (ps : List StoredProposal) (id : String)
    (st : ProposalStatus) :
    (updateProposalStatus ps id st).find? (fun p => p.id = id) =
      (ps.find? fun p => p.id = id).map (fun p => { p with status := st }) := by
  induction ps with
  | nil => simp [updateProposalStatus]
  | cons p rest ih =>
      simp only [updateProposalStatus, List.map_cons]
      by_cases h : p.id = id
      · rw [List.find?_cons_of_pos _ (by simp [h]),
          List.find?_cons_of_pos _ (by simp [h])]
        simp [h]
      · rw [List.find?_cons_of_neg _ (by simp [h]),
          List.find?_cons_of_neg _ (by simp [h])]
        simpa [updateProposalStatus] using ih

/-- C10: recording a decision updates the matching proposal's status to
`decideNewStatus outcome`, which is `escalated` for `deferred` (not a
deferred or rejected status), `approved` for `approved`, and `rejected`
for `rejected`. -/
theorem c10_decide_status_update (ps : List StoredProposal) (id : String)
    (outcome : DecisionOutcome) :
    (decideStatusUpdate ps id outcome).find? (fun p => p.id = id) =
      (ps.find? fun p => p.id = id).map
        (fun p => { p with status := decideNewStatus outcome }) ∧
    decideNewStatus .deferred = .escalated ∧
    decideNewStatus .approved = .approved ∧
    decideNewStatus .rejected = .rejected := by
  refine ⟨?_, rfl, rfl, rfl⟩
  exact find?_updateProposalStatus ps id (decideNewStatus outcome)

/-- C3: a non-empty vote list with at least one REVISE vote always
evaluates to consensus reached with outcome `revise`, for either consensus
mode and regardless of any APPROVE/REJECT majority among the other votes. -/
theorem c3_any_revise_forces_revision (reviews : List VoteEntry)
    (mode : ConsensusMode) (hne : reviews ≠ [])
    (hrev : ∃ r ∈ reviews, r.vote = .REVISE) :
    evaluateConsensus reviews mode =
      { hasConsensus := true, outcome := some .revise, votes := reviews } := by
  obtain ⟨r0, hr0, hr0v⟩ := hrev
  have hlen : ¬ reviews.length = 0 := by
    simpa [List.length_eq_zero] using hne
  have hA : ¬ voteCount reviews .APPROVE = reviews.length := by
    intro h
    have := List.countP_eq_length.mp h r0 hr0
    simp [hr0v] at this
  have hR : ¬ voteCount reviews .REJECT = reviews.length := by
    intro h
    have := List.countP_eq_length.mp h r0 hr0
    simp [hr0v] at this
  have hRev : voteCount reviews .REVISE > 0 :=
    List.countP_pos_iff.mpr ⟨r0, hr0, by simp [hr0v]⟩
  simp [evaluateConsensus, hlen, hA, hR, hRev]

/-- C3 witness: `[APPROVE, APPROVE, REVISE]` under majority mode resolves
to `revise`, not `approved`. -/
theorem c3_any_revise_forces_revision_witness :
    evaluateConsensus
        [⟨.claude, .APPROVE⟩, ⟨.codex, .APPROVE⟩, ⟨.gemini, .REVISE⟩]
        .majority =
      { hasConsensus := true, outcome := some .revise,
        votes := [⟨.claude, .APPROVE⟩, ⟨.codex, .APPROVE⟩, ⟨.gemini, .REVISE⟩] } :=
  c3_any_revise_forces_revision _ .majority (by decide)
    ⟨⟨.gemini, .REVISE⟩, by decide, rfl⟩

/-- C5: on a non-empty, REVISE-free, non-unanimous vote list — under
majority mode with distinct APPROVE/REJECT counts the evaluator reaches
consensus for the side with more votes; under unanimous mode (votes being
mixed), or under a majority-mode tie, it reports no consensus with outcome
`disputed`. -/
theorem c5_mixed_votes_resolution (reviews : List VoteEntry)
    (mode : ConsensusMode) (hne : reviews ≠ [])
    (hnorev : ∀ r ∈ reviews, r.vote ≠ .REVISE)
    (hnotallA : ∃ r ∈ reviews, r.vote ≠ .APPROVE)
    (hnotallR : ∃ r ∈ reviews, r.vote ≠ .REJECT) :
    (mode = .majority →
      voteCount reviews .APPROVE > voteCount reviews .REJECT →
      evaluateConsensus reviews mode =
        { hasConsensus := true, outcome := some .approved, votes := reviews }) ∧
    (mode = .majority →
      voteCount reviews .REJECT > voteCount reviews .APPROVE →
      evaluateConsensus reviews mode =
        { hasConsensus := true, outcome := some .rejected, votes := reviews }) ∧
    ((mode = .unanimous ∨ voteCount reviews .APPROVE = voteCount reviews .REJECT) →
      evaluateConsensus reviews mode =
        { hasConsensus := false, outcome := some .disputed, votes := reviews }) := by
  have hlen : ¬ reviews.length = 0 := by
    simpa [List.length_eq_zero] using hne
  obtain ⟨ra, hra, hrav⟩ := hnotallA
  obtain ⟨rr, hrr, hrrv⟩ := hnotallR
  have hA : ¬ voteCount reviews .APPROVE = reviews.length := by
    intro h
    have := List.countP_eq_length.mp h ra hra
    simp [hrav] at this
  have hR : ¬ voteCount reviews .REJECT = reviews.length := by
    intro h
    have := List.countP_eq_length.mp h rr hrr
    simp [hrrv] at this
  have hRev : ¬ voteCount reviews .REVISE > 0 := by
    intro h
    obtain ⟨r, hr, hrv⟩ := List.countP_pos_iff.mp h
    exact hnorev r hr (by simpa using hrv)
  refine ⟨?_, ?_, ?_⟩
  · intro hm hgt
    have hngt : ¬ voteCount reviews .REJECT > voteCount reviews .APPROVE := by omega
    simp [evaluateConsensus, hlen, hA, hR, hRev, hm, hgt, hngt]
  · intro hm hgt
    have hngt : ¬ voteCount reviews .APPROVE > voteCount reviews .REJECT := by omega
    simp [evaluateConsensus, hlen, hA, hR, hRev, hm, hgt, hngt]
  · rintro (hm | htie)
    · simp [evaluateConsensus, hlen, hA, hR, hRev, hm]
    · have h1 : ¬ voteCount reviews .APPROVE > voteCount reviews .REJECT := by omega
      have h2 : ¬ voteCount reviews .REJECT > voteCount reviews .APPROVE := by omega
      simp [evaluateConsensus, hlen, hA, hR, hRev, h1, h2]

/-- C5 witness: under majority mode `[APPROVE, APPROVE, REJECT]` resolves
to `approved`, and under unanimous mode the same split is `disputed`. -/
theorem c5_mixed_votes_resolution_witness :
    evaluateConsensus
        [⟨.claude, .APPROVE⟩, ⟨.codex, .APPROVE⟩, ⟨.gemini, .REJECT⟩]
        .majority =
      { hasConsensus := true, outcome := some .approved,
        votes := [⟨.claude, .APPROVE⟩, ⟨.codex, .APPROVE⟩, ⟨.gemini, .REJECT⟩] } ∧
    evaluateConsensus
        [⟨.claude, .APPROVE⟩, ⟨.codex, .APPROVE⟩, ⟨.gemini, .REJECT⟩]
        .unanimous =
      { hasConsensus := false, outcome := some .disputed,
        votes := [⟨.claude, .APPROVE⟩, ⟨.codex, .APPROVE⟩, ⟨.gemini, .REJECT⟩] } :=
  ⟨(c5_mixed_votes_resolution _ .majority (by decide)
        (by decide) ⟨⟨.gemini, .REJECT⟩, by decide, by decide⟩
        ⟨⟨.claude, .APPROVE⟩, by decide, by decide⟩).1 rfl (by decide),
   (c5_mixed_votes_resolution _ .unanimous (by decide)
        (by decide) ⟨⟨.gemini, .REJECT⟩, by decide, by decide⟩
        ⟨⟨.claude, .APPROVE⟩, by decide, by decide⟩).2.2 (Or.inl rfl)⟩

/-- C8: the classifier score is 2 × (keywords occurring case-insensitively
as substrings of the task text) + 1 × (file-glob patterns matching at least
one listed file); in particular keywords `["auth","jwt"]` against task text
`"Add JWT Authentication"` with no file-pattern match score 4. -/
theorem c8_match_expertise_score (globMatch : String → String → Bool)
    (task : String) (files : List String) (expertise : ExpertiseProfile) :
    (matchExpertise globMatch task files expertise).score =
      2 * (expertise.keywords.countP fun k =>
            charsIncludes (lowerChars task) (lowerChars k)) +
      (expertise.filePatterns.countP fun pat => files.any (globMatch pat)) ∧
    (matchExpertise (fun _ _ => false) "Add JWT Authentication" []
        { name := "security", keywords := ["auth", "jwt"], filePatterns := [],
          promptFocus := "" }).score = 4 := by
  refine ⟨?_, by decide⟩
  simp only [matchExpertise]
  rw [List.countP_eq_length_filter, Nat.mul_comm]
  congr 1
  by_cases hf : files.length > 0 ∧ expertise.filePatterns.length > 0
  · rw [if_pos hf, List.countP_eq_length_filter]
    congr 1
    apply List.filter_congr
    intro pat _
    by_cases h : files.any (globMatch pat) = true
    · obtain ⟨x, hx, hgx⟩ := List.any_eq_true.mp h
      have : (files.filter (globMatch pat)).length > 0 :=
        List.length_pos.mpr (by
          intro hnil
          have := List.mem_filter.mpr ⟨hx, hgx⟩
          rw [hnil] at this
          exact List.not_mem_nil _ this)
      simp [this, h]
    · have hall : ∀ x ∈ files, ¬ globMatch pat x = true := by
        intro x hx hgx
        exact h (List.any_eq_true.mpr ⟨x, hx, hgx⟩)
      have : files.filter (globMatch pat) = [] :=
        List.filter_eq_nil_iff.mpr hall
      simp [this, h]
  · rw [if_neg hf]
    rcases Decidable.not_and_iff_or_not.mp hf with hfe | hpe
    · have hnil : files = [] := by
        simpa [List.length_pos] using hfe
      simp [hnil]
    · have hnil : expertise.filePatterns = [] := by
        simpa [List.length_pos] using hpe
      simp [hnil]

/-- With an empty accumulator, a `REVIEW_RECEIVED` in `pending_review`
decides immediately on the single new vote. -/
theorem step_pending_review_single (ctx : ProposalContext)
    (hc : ctx.votes = []) (a : AgentName) (v : Vote) :
    step ⟨.pending_review, ctx⟩ (.REVIEW_RECEIVED a v) =
      { status := match v with
          | .APPROVE => .approved
          | .REVISE => .revision
          | .REJECT => .rejected
        context := { ctx with votes := [⟨a, v⟩] } } := by
  cases v <;> simp [step, hc]

/-- Invariant: starting from any draft state with an empty accumulator,
every reachable `pending_review` state has an empty accumulator. -/
theorem pending_votes_inv {s₀ s : MachineState} (_h0 : s₀.status = .draft)
    (hv : s₀.context.votes = []) (hr : Reachable s₀ s) :
    s.status = .pending_review → s.context.votes = [] := by
  induction hr with
  | refl => exact fun _ => hv
  | tail e hr ih =>
      rename_i t
      obtain ⟨st, ctx⟩ := t
      clear hr
      cases st <;> cases e <;>
        first
          | (rename_i a v
             rw [step_pending_review_single ctx (ih rfl) a v]
             cases v <;> simp)
          | (simp only [step]
             split_ifs <;> simp)
          | (simp [step]
             exact ih rfl)
          | simp [step]

/-- C4: every state reachable from a draft state with an empty accumulator
that sits in `pending_review` has an empty vote accumulator, and
consequently every `REVIEW_RECEIVED` immediately leaves `pending_review`
for `approved`, `revision`, or `rejected` — the mixed-votes guard (target
`disputed`) and the default remain-and-record branch never fire in a
reachable state. -/
theorem c4_pending_review_empty_votes (s₀ s : MachineState)
    (h0 : s₀.status = .draft) (hv : s₀.context.votes = [])
    (hr : Reachable s₀ s) (hp : s.status = .pending_review) :
    s.context.votes = [] ∧
    ∀ (a : AgentName) (v : Vote),
      (step s (.REVIEW_RECEIVED a v)).status = .approved ∨
      (step s (.REVIEW_RECEIVED a v)).status = .revision ∨
      (step s (.REVIEW_RECEIVED a v)).status = .rejected := by
  have hinv := pending_votes_inv h0 hv hr hp
  refine ⟨hinv, fun a v => ?_⟩
  obtain ⟨st, ctx⟩ := s
  dsimp only at hp hinv
  subst hp
  rw [step_pending_review_single ctx hinv a v]
  cases v <;> simp

/-- C4 witness: after `CREATE` from the machine's initial configuration the
accumulator is empty. -/
theorem c4_pending_review_empty_votes_witness :
    (step initialState .CREATE).context.votes = [] :=
  (c4_pending_review_empty_votes initialState _ rfl rfl
    (Reachable.tail .CREATE (Reachable.refl _)) (by decide)).1

/-- C1: in any reachable `pending_review` state, `REVIEW_RECEIVED(a, v)`
appends the vote to the accumulator and transitions exactly as the spec's
else-chain over the accumulated current-iteration votes including the new
one (`specPendingReviewTarget`): all-APPROVE → `approved`; else consensus
cascade yields revise → `revision`; else mixed APPROVE/REJECT →
`disputed`; else all-REJECT → `rejected`; otherwise stay in
`pending_review`. -/
theorem c1_pending_review_review_received (s₀ s : MachineState)
    (h0 : s₀.status = .draft) (hv : s₀.context.votes = [])
    (hr : Reachable s₀ s) (hp : s.status = .pending_review)
    (a : AgentName) (v : Vote) (mode : ConsensusMode) :
    (step s (.REVIEW_RECEIVED a v)).context.votes =
      s.context.votes ++ [⟨a, v⟩] ∧
    (step s (.REVIEW_RECEIVED a v)).status =
      specPendingReviewTarget mode (s.context.votes ++ [⟨a, v⟩]) := by
  have hinv := pending_votes_inv h0 hv hr hp
  obtain ⟨st, ctx⟩ := s
  dsimp only at hp hinv
  subst hp
  rw [step_pending_review_single ctx hinv a v, hinv]
  cases v <;> cases mode <;>
    simp [specPendingReviewTarget, evaluateConsensus, voteCount]

/-- C1 witness: the first review in the freshly created proposal, a
`REVISE`, sends the machine to `revision`, matching the spec chain. -/
theorem c1_pending_review_review_received_witness :
    (step (step initialState .CREATE)
        (.REVIEW_RECEIVED .claude .REVISE)).status =
      specPendingReviewTarget .majority
        ((step initialState .CREATE).context.votes ++ [⟨.claude, .REVISE⟩]) :=
  (c1_pending_review_review_received initialState _ rfl rfl
    (Reachable.tail .CREATE (Reachable.refl _)) (by decide)
    .claude .REVISE .majority).2

/-- The selection loop, once the running minimum is the count of the
running selection, returns a candidate from the processed list or the
running selection, with an arbitration count no larger than any of them. -/
theorem leastUsedGo_spec (arb : AgentName → Nat) (l : List AgentName)
    (sel : AgentName) :
    (leastUsedGo arb l sel (some (arb sel)) = sel ∨
      leastUsedGo arb l sel (some (arb sel)) ∈ l) ∧
    arb (leastUsedGo arb l sel (some (arb sel))) ≤ arb sel ∧
    ∀ a ∈ l, arb (leastUsedGo arb l sel (some (arb sel))) ≤ arb a := by
  induction l generalizing sel with
  | nil => simp [leastUsedGo]
  | cons a rest ih =>
      simp only [leastUsedGo]
      by_cases h : arb a < arb sel
      · rw [if_pos (by simpa [ltMin] using h)]
        obtain ⟨hmem, hle, hall⟩ := ih a
        refine ⟨?_, le_trans hle (le_of_lt h), ?_⟩
        · rcases hmem with h1 | h1
          · right; simp [h1]
          · right; simp [h1]
        · intro b hb
          rcases List.mem_cons.mp hb with rfl | hb
          · exact hle
          · exact hall b hb
      · rw [if_neg (by simpa [ltMin] using h)]
        obtain ⟨hmem, hle, hall⟩ := ih sel
        refine ⟨?_, hle, ?_⟩
        · rcases hmem with h1 | h1
          · left; exact h1
          · right; simp [h1]
        · intro b hb
          rcases List.mem_cons.mp hb with rfl | hb
          · exact le_trans hle (Nat.le_of_not_lt h)
          · exact hall b hb

/-- The round-robin / least-used loop over a non-empty eligible list picks
an eligible candidate with the fewest recorded arbitrations. -/
theorem selectLeastUsed_spec (arb : AgentName → Nat)
    (eligible : List AgentName) (hne : eligible ≠ []) :
    ∃ r, selectLeastUsed arb eligible = some r ∧ r ∈ eligible ∧
      ∀ a ∈ eligible, arb r ≤ arb a := by
  match eligible, hne with
  | e0 :: rest, _ =>
      have hgo : leastUsedGo arb (e0 :: rest) e0 none =
          leastUsedGo arb rest e0 (some (arb e0)) := by
        simp [leastUsedGo, ltMin]
      obtain ⟨hmem, hle, hall⟩ := leastUsedGo_spec arb rest e0
      refine ⟨leastUsedGo arb (e0 :: rest) e0 none, rfl, ?_, ?_⟩
      · rw [hgo]
        rcases hmem with h1 | h1
        · simp [h1]
        · simp [h1]
      · intro a ha
        rw [hgo]
        rcases List.mem_cons.mp ha with rfl | ha
        · exact hle
        · exact hall a ha

/-- C7: whenever some configured arbiter candidate is from a different
identity-family than the excluded one, `selectArbiter` returns such a
candidate — under round-robin/least-used, an eligible candidate with the
fewest recorded prior arbitrations; under specific, the first configured
eligible candidate. With no out-of-family candidate it falls back to the
first configured candidate. -/
theorem c7_selectArbiter_family_exclusion (roles : RolesConfig)
    (agentFamily : AgentName → ModelFamily) (arbitrations : AgentName → Nat)
    (excludeFamily : ModelFamily) :
    ((∃ a ∈ roles.arbiters, agentFamily a ≠ excludeFamily) →
      ∃ r, selectArbiter roles agentFamily arbitrations excludeFamily = some r ∧
        r ∈ roles.arbiters ∧ agentFamily r ≠ excludeFamily ∧
        ((roles.arbiterStrategy = .roundRobin ∨
            roles.arbiterStrategy = .leastUsed) →
          ∀ a ∈ roles.arbiters, agentFamily a ≠ excludeFamily →
            arbitrations r ≤ arbitrations a) ∧
        (roles.arbiterStrategy = .specific →
          some r = (roles.arbiters.filter fun a =>
              agentFamily a ≠ excludeFamily).head?)) ∧
    ((∀ a ∈ roles.arbiters, agentFamily a = excludeFamily) →
      selectArbiter roles agentFamily arbitrations excludeFamily =
        roles.arbiters.head?) := by
  constructor
  · rintro ⟨a0, ha0, hfa0⟩
    have ha0e : a0 ∈ roles.arbiters.filter fun a =>
        agentFamily a ≠ excludeFamily :=
      List.mem_filter.mpr ⟨ha0, by simpa using hfa0⟩
    have hne : (roles.arbiters.filter fun a =>
        agentFamily a ≠ excludeFamily) ≠ [] := by
      intro h
      rw [h] at ha0e
      exact List.not_mem_nil _ ha0e
    have hlen : ¬ (roles.arbiters.filter fun a =>
        agentFamily a ≠ excludeFamily).length = 0 := by
      simpa [List.length_eq_zero] using hne
    cases hstrat : roles.arbiterStrategy
    · obtain ⟨r, hsel, hmem, hmin⟩ :=
        selectLeastUsed_spec arbitrations _ hne
      obtain ⟨hmemA, hfam⟩ := List.mem_filter.mp hmem
      refine ⟨r, ?_, hmemA, by simpa using hfam, ?_, ?_⟩
      · simp only [selectArbiter, hstrat]
        rw [if_neg hlen]
        exact hsel
      · intro _ a ha hfa
        exact hmin a (List.mem_filter.mpr ⟨ha, by simpa using hfa⟩)
      · intro h
        simp at h
    · obtain ⟨r, hsel, hmem, hmin⟩ :=
        selectLeastUsed_spec arbitrations _ hne
      obtain ⟨hmemA, hfam⟩ := List.mem_filter.mp hmem
      refine ⟨r, ?_, hmemA, by simpa using hfam, ?_, ?_⟩
      · simp only [selectArbiter, hstrat]
        rw [if_neg hlen]
        exact hsel
      · intro _ a ha hfa
        exact hmin a (List.mem_filter.mpr ⟨ha, by simpa using hfa⟩)
      · intro h
        simp at h
    · match hcase : roles.arbiters.filter fun a =>
          agentFamily a ≠ excludeFamily with
      | [] => exact absurd hcase hne
      | e0 :: rest =>
          have he0 : e0 ∈ roles.arbiters.filter fun a =>
              agentFamily a ≠ excludeFamily := by
            rw [hcase]; exact List.mem_cons_self _ _
          obtain ⟨he0A, he0f⟩ := List.mem_filter.mp he0
          refine ⟨e0, ?_, he0A, by simpa using he0f, ?_, ?_⟩
          · simp only [selectArbiter, hstrat]
            rw [if_neg hlen, hcase]
            rfl
          · intro h
            rcases h with h | h <;> simp at h
          · intro _
            rfl
  · intro hall
    have hnil : (roles.arbiters.filter fun a =>
        agentFamily a ≠ excludeFamily) = [] := by
      rw [List.filter_eq_nil_iff]
      intro a ha
      simp [hall a ha]
    simp only [selectArbiter]
    rw [hnil]
    simp

/-- C7 witness: arbiters `[gemini, claude]` with `gemini` of the excluded
family `google`: the round-robin selection returns `claude`; with both of
the excluded family, the fallback returns the first configured candidate
`gemini`. -/
theorem c7_selectArbiter_family_exclusion_witness :
    (∃ r, selectArbiter DEFAULT_ROLES
        (fun a => match a with
          | .claude => .anthropic
          | .codex => .openai
          | .gemini => .google)
        (fun _ => 0) .google = some r ∧
      r ∈ DEFAULT_ROLES.arbiters ∧
      (match r with
        | .claude => ModelFamily.anthropic
        | .codex => ModelFamily.openai
        | .gemini => ModelFamily.google) ≠ .google) ∧
    selectArbiter DEFAULT_ROLES (fun _ => .google) (fun _ => 0) .google =
      DEFAULT_ROLES.arbiters.head? := by
  constructor
  · obtain ⟨r, hsel, hmem, hfam, -, -⟩ :=
      (c7_selectArbiter_family_exclusion DEFAULT_ROLES
          (fun a => match a with
            | .claude => .anthropic
            | .codex => .openai
            | .gemini => .google)
          (fun _ => 0) .google).1
        ⟨.claude, by decide, by decide⟩
    exact ⟨r, hsel, hmem, hfam⟩
  · exact (c7_selectArbiter_family_exclusion DEFAULT_ROLES
        (fun _ => .google) (fun _ => 0) .google).2
      (fun a _ => rfl)

end Corrum
